import Mathlib

/-!
Verification development for the qiime2 archiver module
(qiime2/core/archive/archiver.py).

The Python module is shallowly embedded: paths are lists of components,
filesystem and cache state are passed explicitly, fallible operations
return Except, and machine details that the module delegates to external
collaborators (the cache subsystem, utility digests) are modelled from the
specification where the collaborator code is not part of this module.
-/

namespace Qiime2

/-- A filesystem or container path, as a list of name components. -/
abbrev Path := List String

/-- Errors raised by the archiver module.  Each constructor corresponds to
one distinct raise site in the source. -/
inductive ArchiveError where
  /-- TypeError: path does not exist or is not a filepath. -/
  | notAFilepath : ArchiveError
  /-- ValueError: archive does not have a visible root directory. -/
  | missingRoot : ArchiveError
  /-- ValueError: archive has multiple root directories. -/
  | multipleRoots : List String → ArchiveError
  /-- ValueError: root directory name is not a valid version 4 UUID. -/
  | invalidUuidRoot : String → ArchiveError
  /-- ValueError: archive does not contain a correctly formatted VERSION file. -/
  | malformedVersionFile : ArchiveError
  /-- ValueError raised by Archiver._futuristic_archive_error, carrying the
  filepath, the declared framework version and the declared archive version. -/
  | futuristicArchive : Path → String → String → ArchiveError
  /-- Failure propagated from the backend mount or format write step. -/
  | mountOrWriteFailed : ArchiveError
  /-- Failure propagated from the cache rename-to-data step. -/
  | renameFailed : ArchiveError
  /-- Failure after the rename, while binding the handle. -/
  | bindFailed : ArchiveError
  /-- FileExistsError raised by os.makedirs on an existing path. -/
  | fileExistsError : ArchiveError
deriving DecidableEq, Repr

/-- The ArchiveRecord namedtuple of the source. -/
structure ArchiveRecord where
  root : Path
  version_fp : Path
  uuid : String
  version : String
  framework_version : String
deriving DecidableEq, Repr

namespace Py

/-- The Python str.split with a one-character separator, on the character
list of the string: splitting the empty text gives one empty segment, and
each separator occurrence opens a new segment. -/
def split (sep : Char) : List Char → List (List Char)
  | [] => [[]]
  | c :: rest =>
      let r := split sep rest
      if c = sep then [] :: r
      else
        match r with
        | [] => [[c]]
        | h :: t => (c :: h) :: t

/-- The whitespace characters the Python str.strip removes. -/
def isSpace (c : Char) : Bool :=
  c = ' ' || c = '\t' || c = '\n' || c = '\r' ||
  c = (Char.ofNat 11) || c = (Char.ofNat 12)

/-- The Python str.strip: drop leading and trailing whitespace. -/
def strip (s : List Char) : List Char :=
  ((s.dropWhile isSpace).reverse.dropWhile isSpace).reverse

/-- The Python name.startswith with the one-character hidden marker. -/
def isHidden (s : String) : Bool :=
  s.data.head? == some '.'

end Py

/-- Modelled from the spec: is_uuid4 from qiime2.core.util (not part of this
module) decides whether a string is a syntactically valid version 4 UUID:
five hyphen-separated groups of lowercase hex digits of lengths 8-4-4-4-12,
the third group starting with the character 4 and the fourth group starting
with one of 8, 9, a, b. -/
def is_uuid4 (s : String) : Bool :=
  match Py.split '-' s.data with
  | [a, b, c, d, e] =>
      a.length == 8 && b.length == 4 && c.length == 4 && d.length == 4 &&
      e.length == 12 &&
      (a ++ b ++ c ++ d ++ e).all
        (fun ch => ch.isDigit || (ch ≥ 'a' && ch ≤ 'f')) &&
      c.head? == some '4' &&
      (d.head? == some '8' || d.head? == some '9' || d.head? == some 'a' ||
       d.head? == some 'b')
  | _ => false

namespace Archive

/-- The set of visible roots collected by the loop of _Archive._get_uuid:
the Python set is modelled as the deduplicated list of non-hidden
entries. -/
def visibleRoots (entries : List String) : List String :=
  (entries.filter (fun r => ¬ Py.isHidden r)).dedup

/-- _Archive._get_uuid: given whether the path exists and the top level
entries yielded by relative_iterdir, collect the set of visible roots and
validate there is exactly one and that it is a version 4 UUID. -/
def _get_uuid (pathExists : Bool) (entries : List String) :
    Except ArchiveError String :=
  if ¬ pathExists then .error .notAFilepath
  else
    match visibleRoots entries with
    | [] => .error .missingRoot
    | [u] =>
        if ¬ is_uuid4 u then .error (.invalidUuidRoot u)
        else .ok u
    | rs => .error (.multipleRoots rs)

/-- _Archive._get_versions: the text of the VERSION resource is split on the
newline character; the Python tuple unpacking into
(header, version_line, framework_version_line, eof) demands exactly four
segments; the header must strip to the literal QIIME 2; each of the next two
lines is split on the colon and element 1 is taken (an IndexError when there
is no colon); every failure collapses to the single malformed error. -/
def _get_versions (text : String) : Except ArchiveError (String × String) :=
  match Py.split '\n' text.data with
  | [header, version_line, framework_version_line, _eof] =>
      if ¬ String.mk (Py.strip header) = "QIIME 2" then
        .error .malformedVersionFile
      else
        match (Py.split ':' version_line).get? 1,
              (Py.split ':' framework_version_line).get? 1 with
        | some v, some f => .ok (String.mk (Py.strip v), String.mk (Py.strip f))
        | _, _ => .error .malformedVersionFile
  | _ => .error .malformedVersionFile

end Archive

/-- The identity of an archive backend instance once construction succeeded:
the wrapped path plus the derived uuid, version and framework version. -/
structure ArchiveInfo where
  path : Path
  uuid : String
  version : String
  framework_version : String
deriving DecidableEq, Repr

namespace _NoOpArchive

/-- _NoOpArchive._get_uuid: the name of the directory is taken to be the
uuid, with no existence, uniqueness or UUID validity check at all. -/
def _get_uuid (path : Path) : String :=
  path.getLastD ""

/-- _NoOpArchive construction (the _Archive init): derive the uuid from the
path basename, then parse the VERSION text. -/
def init (path : Path) (versionText : String) :
    Except ArchiveError ArchiveInfo := do
  let uuid := _get_uuid path
  let (v, fv) ← Archive._get_versions versionText
  return ⟨path, uuid, v, fv⟩

end _NoOpArchive

namespace _ZipArchive

/-- _ZipArchive construction (the _Archive init): validate the root entries
with the shared _Archive._get_uuid, then parse the VERSION text. -/
def init (path : Path) (pathExists : Bool) (rootEntries : List String)
    (versionText : String) : Except ArchiveError ArchiveInfo := do
  let uuid ← Archive._get_uuid pathExists rootEntries
  let (v, fv) ← Archive._get_versions versionText
  return ⟨path, uuid, v, fv⟩

end _ZipArchive

/-- A container entry: the archive name of the entry as path components
(the Python side joins these with forward slashes), and the stored bytes. -/
abbrev Entry := Path × String

/-- The observable state of the filesystem: the files that exist (with their
contents) and the directories that exist. -/
structure FS where
  files : List (Path × String)
  dirs : List Path
deriving DecidableEq, Repr

namespace FS

/-- The content of the file at a path, when it exists. -/
def fileAt (fs : FS) (p : Path) : Option String :=
  fs.files.lookup p

/-- Writing a file creates it or replaces its previous content. -/
def write (fs : FS) (p : Path) (c : String) : FS :=
  ⟨(p, c) :: fs.files.filter (fun e => ¬ e.1 = p), fs.dirs⟩

/-- os.path.exists: the path is present as a file or as a directory. -/
def pathExists (fs : FS) (p : Path) : Bool :=
  (fs.fileAt p).isSome || fs.dirs.contains p

/-- os.makedirs on a fresh path registers the directory. -/
def mkdir (fs : FS) (p : Path) : FS :=
  ⟨fs.files, p :: fs.dirs⟩

end FS

namespace Zipfile

/-- The sanitization the Python standard library applies inside
ZipFile.extract, which the source comment relies on (extract removes the
parent-directory components): empty, current-directory and parent-directory
components of the archive name are dropped before joining under the
extraction directory. -/
def sanitize (arcname : Path) : Path :=
  arcname.filter (fun x => ¬ (x = "" ∨ x = "." ∨ x = ".."))

/-- The target path ZipFile.extract writes an entry to: the extraction
directory joined with the sanitized archive name. -/
def extractTarget (destDir : Path) (arcname : Path) : Path :=
  destDir ++ sanitize arcname

end Zipfile

namespace _ZipArchive

/-- The name.startswith(uuid) filter of _ZipArchive.extract, on the
component representation of an archive name: a uuid contains no slash, so
the string form of the name starts with the uuid exactly when its first
component does. -/
def nameMatches (uuid : String) : Path → Bool
  | [] => uuid == ""
  | c :: _ => uuid.data.isPrefixOf c.data

/-- _ZipArchive.save: walk the source tree (given as paths relative to the
source directory, whose basename is sourceName), prune every file lying
under a hidden directory or itself hidden, and write each remaining file
with the archive name relative to the parent of the source directory. -/
def save (sourceName : String) (tree : List Entry) : List Entry :=
  (tree.filter (fun e => e.1.all (fun c => ¬ Py.isHidden c))).map
    (fun e => (sourceName :: e.1, e.2))

/-- The extraction loop of _ZipArchive.extract: each selected entry is
handed to the container codec, which writes it at its sanitized target under
the extraction directory. -/
def writeAll (destDir : Path) (l : List Entry) (fs : FS) : FS :=
  l.foldl (fun acc e => acc.write (Zipfile.extractTarget destDir e.1) e.2) fs

/-- _ZipArchive.extract: assert that the basename of filepath is the uuid,
then extract every entry whose name starts with the uuid into the parent of
filepath; none models the assertion failing. -/
def extract (entries : List Entry) (uuid : String) (filepath : Path)
    (fs : FS) : Option FS :=
  if filepath.getLast? = some uuid then
    some (writeAll filepath.dropLast
      (entries.filter (fun e => nameMatches uuid e.1)) fs)
  else none

/-- _ZipArchive.mount: if the VERSION file already exists under filepath the
data is already materialized and extraction is skipped; otherwise extract.
Either way the returned record points at filepath. -/
def mount (entries : List Entry) (info : ArchiveInfo) (filepath : Path)
    (fs : FS) : Option (FS × ArchiveRecord) :=
  let record : ArchiveRecord :=
    ⟨filepath, filepath ++ ["VERSION"], info.uuid, info.version,
     info.framework_version⟩
  if fs.pathExists (filepath ++ ["VERSION"]) then
    some (fs, record)
  else
    (extract entries info.uuid filepath fs).map (fun fs2 => (fs2, record))

end _ZipArchive

namespace _NoOpArchive

/-- _NoOpArchive.mount: no materialization at all, only the record. -/
def mount (info : ArchiveInfo) (path : Path) : ArchiveRecord :=
  ⟨path, path ++ ["VERSION"], info.uuid, info.version,
   info.framework_version⟩

end _NoOpArchive

namespace Cache

/-- Modelled from the spec: the observable allocation state of the external
cache subsystem, as the list of names of live allocations. -/
abbrev State := List String

/-- Modelled from the spec: allocate(uuid) yields a directory registered
under the uuid. -/
def _allocate (c : State) (name : String) : State :=
  name :: c

/-- Modelled from the spec: the alias name under which rename_to_stable
re-registers the working copy of a uuid. -/
def aliasName (uuid : String) : String :=
  "alias-of-" ++ uuid

/-- Modelled from the spec: the stable data location a uuid is renamed
into. -/
def dataPath (uuid : String) : Path :=
  ["data", uuid]

/-- Modelled from the spec: rename_to_stable(uuid, tmp) atomically retires
the temporary allocation named by the uuid and registers the process alias,
returning that alias. -/
def _rename_to_data (c : State) (uuid : String) : String × State :=
  (aliasName uuid, aliasName uuid :: c.erase uuid)

/-- Modelled from the spec: release of the allocation with the given name;
releasing a name with no live allocation is a no-op. -/
def remove (c : State) (name : String) : State :=
  c.erase name

/-- The number of live allocations attributable to a uuid: its temporary
allocation plus its post-rename alias. -/
def allocsFor (c : State) (uuid : String) : Nat :=
  c.count uuid + c.count (aliasName uuid)

end Cache

namespace Archiver

/-- The _FORMAT_REGISTRY mapping of the source, as an association list. -/
def _FORMAT_REGISTRY : List (String × String) :=
  [("0", "qiime2.core.archive.format.v0:ArchiveFormat"),
   ("1", "qiime2.core.archive.format.v1:ArchiveFormat"),
   ("2", "qiime2.core.archive.format.v2:ArchiveFormat"),
   ("3", "qiime2.core.archive.format.v3:ArchiveFormat"),
   ("4", "qiime2.core.archive.format.v4:ArchiveFormat"),
   ("5", "qiime2.core.archive.format.v5:ArchiveFormat")]

def CURRENT_FORMAT_VERSION : String := "5"

/-- A resolved format handler class: the module path and class name obtained
by splitting the registry locator on the colon. -/
structure FormatClass where
  modpath : String
  clsname : String
deriving DecidableEq, Repr

/-- Archiver.get_format_class: a registry lookup miss (the KeyError branch)
returns None; a hit splits the locator on the colon into the module path and
class name. -/
def get_format_class (version : String) : Option FormatClass :=
  match _FORMAT_REGISTRY.lookup version with
  | none => none
  | some locator =>
      match Py.split ':' locator.data with
      | [imp, fmt_cls] => some ⟨String.mk imp, String.mk fmt_cls⟩
      | _ => some ⟨locator, locator⟩

/-- Archiver._futuristic_archive_error: the raised ValueError carries the
offending filepath, the declared framework version and the declared archive
version. -/
def _futuristic_archive_error (filepath : Path) (info : ArchiveInfo) :
    ArchiveError :=
  .futuristicArchive filepath info.framework_version info.version

/-- Archiver.peek: identify the archive, resolve its declared version, fail
with the futuristic-archive error on a registry miss, otherwise ask the
format handler for its metadata view.  Modelled from the spec: the external
load_metadata of the handler is a pure read, represented here by the pair of
the resolved handler and the archive it was asked about.  The cache state is
threaded through untouched because the body performs no cache operation. -/
def peek (info : ArchiveInfo) (c : Cache.State) :
    Except ArchiveError (FormatClass × ArchiveInfo) × Cache.State :=
  match get_format_class info.version with
  | none => (.error (_futuristic_archive_error info.path info), c)
  | some F => (.ok (F, info), c)

/-- Archiver.extract: join the uuid onto the destination, create that
directory with os.makedirs (which raises when the path already exists), and
delegate to the backend extract. -/
def extract (entries : List Entry) (info : ArchiveInfo) (dest : Path)
    (fs : FS) : Except ArchiveError Path × FS :=
  let dest2 := dest ++ [info.uuid]
  if fs.pathExists dest2 then (.error .fileExistsError, fs)
  else
    let fs2 := fs.mkdir dest2
    match _ZipArchive.extract entries info.uuid dest2 fs2 with
    | some fs3 => (.ok dest2, fs3)
    | none => (.error .fileExistsError, fs2)

/-- A bound Archiver handle: the stable path, the owned cache allocation
alias, and the bound format handler. -/
structure Handle where
  path : Path
  process_alias : String
  fmt : FormatClass
deriving DecidableEq, Repr

/-- Which of the fallible steps of a load or create flow succeed: the
backend mount or format write, the cache rename, and the final handle
construction after the rename. -/
structure StepOutcomes where
  mountOk : Bool
  renameOk : Bool
  bindOk : Bool
deriving DecidableEq, Repr

/-- Archiver._destroy_temp_path: remove the named allocation from the
process pool of the cache. -/
def _destroy_temp_path (c : Cache.State) (process_alias : String) :
    Cache.State :=
  Cache.remove c process_alias

/-- The try-block of Archiver.load, after the temporary allocation: resolve
the format (raising the futuristic error on a miss), mount into the
temporary path, rename to the stable data location, and bind the handle.
The third component records whether the process_alias variable was defined
when the block ended, which is what the except-block of the source tests
with vars(). -/
def loadTry (info : ArchiveInfo) (st : StepOutcomes) (c : Cache.State) :
    Except ArchiveError Handle × Cache.State × Option String :=
  match get_format_class info.version with
  | none => (.error (_futuristic_archive_error info.path info), c, none)
  | some F =>
    if ¬ st.mountOk then (.error .mountOrWriteFailed, c, none)
    else if ¬ st.renameOk then (.error .renameFailed, c, none)
    else
      let (process_alias, c2) := Cache._rename_to_data c info.uuid
      if ¬ st.bindOk then (.error .bindFailed, c2, some process_alias)
      else (.ok ⟨Cache.dataPath info.uuid, process_alias, F⟩, c2,
            some process_alias)

/-- The except-block shared by Archiver.load and Archiver.from_data: destroy
the temporary path named by the uuid, destroy the process alias as well when
that variable was defined, and re-raise the original error. -/
def rollback (uuid : String) (e : ArchiveError) (c : Cache.State)
    (aliasOpt : Option String) : Except ArchiveError Handle × Cache.State :=
  let c2 := _destroy_temp_path c uuid
  let c3 := match aliasOpt with
            | some a => _destroy_temp_path c2 a
            | none => c2
  (.error e, c3)

/-- Archiver.load: allocate a temporary slot for the uuid, run the try-block,
and on any failure roll back both possible allocations before re-raising. -/
def load (info : ArchiveInfo) (st : StepOutcomes) (c0 : Cache.State) :
    Except ArchiveError Handle × Cache.State :=
  let c := Cache._allocate c0 info.uuid
  match loadTry info st c with
  | (.ok h, c2, _) => (.ok h, c2)
  | (.error e, c2, aliasOpt) => rollback info.uuid e c2 aliasOpt

/-- Archiver.load_raw: register an alias for an artifact already resident in
the cache, then resolve the format, raising the futuristic error on a miss.
The source has no cleanup handler here.  Modelled from the spec: the alias
registration of the cache is an allocation under the alias name. -/
def load_raw (info : ArchiveInfo) (filepath : Path) (c0 : Cache.State) :
    Except ArchiveError Handle × Cache.State :=
  let process_alias := Cache.aliasName info.uuid
  let c := Cache._allocate c0 process_alias
  match get_format_class info.version with
  | none => (.error (_futuristic_archive_error filepath info), c)
  | some F => (.ok ⟨filepath, process_alias, F⟩, c)

/-- The try-block of Archiver.from_data, after the temporary allocation:
write the canonical root and VERSION layout and the format payload (the
mountOk flag covers both external write steps), rename to the stable data
location, and bind the handle.  The current format version is always
registered, so no futuristic branch exists here. -/
def fromDataTry (uuid : String) (st : StepOutcomes) (c : Cache.State) :
    Except ArchiveError Handle × Cache.State × Option String :=
  let F := (get_format_class CURRENT_FORMAT_VERSION).getD ⟨"", ""⟩
  if ¬ st.mountOk then (.error .mountOrWriteFailed, c, none)
  else if ¬ st.renameOk then (.error .renameFailed, c, none)
  else
    let (process_alias, c2) := Cache._rename_to_data c uuid
    if ¬ st.bindOk then (.error .bindFailed, c2, some process_alias)
    else (.ok ⟨Cache.dataPath uuid, process_alias, F⟩, c2,
          some process_alias)

/-- Archiver.from_data: allocate a temporary slot for a fresh uuid, run the
try-block, and on any failure roll back both possible allocations before
re-raising. -/
def from_data (uuid : String) (st : StepOutcomes) (c0 : Cache.State) :
    Except ArchiveError Handle × Cache.State :=
  let c := Cache._allocate c0 uuid
  match fromDataTry uuid st c with
  | (.ok h, c2, _) => (.ok h, c2)
  | (.error e, c2, aliasOpt) => rollback uuid e c2 aliasOpt

/-- The ChecksumDiff namedtuple, with the three mappings as association
lists. -/
structure ChecksumDiff where
  added : List (String × String)
  removed : List (String × String)
  changed : List (String × (String × String))
deriving DecidableEq, Repr

/-- Archiver.validate_checksums.  Modelled from the spec where the inputs
come from external collaborators: digests is the observed path-to-digest
mapping of md5sum_directory over the root, manifest is the recorded mapping
parsed from the checksum file, and isChecksumFormat says whether the bound
format is an instance of the checksum-recording format class.  The body
mirrors the source: observed entries drop the checksum file itself, added
keeps observed paths absent from the manifest, removed keeps manifest paths
absent from the observed set, and changed pairs the expected and observed
digests of shared paths that differ. -/
def observedDigests (checksumFile : String)
    (digests : List (String × String)) : List (String × String) :=
  digests.filter (fun x => ¬ x.1 = checksumFile)

def validate_checksums (isChecksumFormat : Bool) (checksumFile : String)
    (digests : List (String × String)) (manifest : List (String × String)) :
    ChecksumDiff :=
  if ¬ isChecksumFormat then ⟨[], [], []⟩
  else
    let obs := observedDigests checksumFile digests
    let added := obs.filter (fun x => (manifest.lookup x.1).isNone)
    let removed := manifest.filter (fun x => (obs.lookup x.1).isNone)
    let changed := manifest.filterMap (fun x =>
      match obs.lookup x.1 with
      | some o => if ¬ o = x.2 then some (x.1, (x.2, o)) else none
      | none => none)
    ⟨added, removed, changed⟩

/-- Spec-side description of the original error of the first failing step of
load, used to state that rollback re-raises the original error unchanged. -/
def loadFirstError (info : ArchiveInfo) (st : StepOutcomes) : ArchiveError :=
  if get_format_class info.version = none then
    _futuristic_archive_error info.path info
  else if ¬ st.mountOk then .mountOrWriteFailed
  else if ¬ st.renameOk then .renameFailed
  else .bindFailed

/-- Spec-side description of the original error of the first failing step of
from_data. -/
def fromDataFirstError (st : StepOutcomes) : ArchiveError :=
  if ¬ st.mountOk then .mountOrWriteFailed
  else if ¬ st.renameOk then .renameFailed
  else .bindFailed

end Archiver

namespace Archive

/-- Spec-side acceptance condition of the VERSION parser, for comparison
with the source translation: the text splits on newline into exactly four
segments, the first segment trims to the literal header, and the second and
third segments each contain a colon. -/
def versionTextAccepted (text : String) : Prop :=
  ∃ h v f e, Py.split '\n' text.data = [h, v, f, e] ∧
    String.mk (Py.strip h) = "QIIME 2" ∧
    2 ≤ (Py.split ':' v).length ∧ 2 ≤ (Py.split ':' f).length

end Archive

theorem lookup_filter_key_ne {α β : Type} [BEq α] [LawfulBEq α]
    [DecidableEq α] (l : List (α × β)) (p q : α) (h : ¬ q = p) :
    (l.filter (fun e => ¬ e.1 = p)).lookup q = l.lookup q := by
  induction l with
  | nil => rfl
  | cons a t ih =>
      by_cases ha : a.1 = p
      · rw [List.filter_cons_of_neg (by simpa using ha)]
        rw [ih]
        cases a with
        | mk k v =>
            simp only [List.lookup]
            have : (q == k) = false := by
              simp only [beq_eq_false_iff_ne, ne_eq]
              intro hq
              exact h (hq.trans ha)
            rw [this]
      · rw [List.filter_cons_of_pos (by simpa using ha)]
        cases a with
        | mk k v =>
            simp only [List.lookup]
            cases hq : (q == k) with
            | true => rfl
            | false => exact ih

theorem lookup_eq_none_iff_not_mem_keys {α β : Type} [BEq α] [LawfulBEq α]
    (l : List (α × β)) (k : α) :
    l.lookup k = none ↔ k ∉ l.map Prod.fst := by
  induction l with
  | nil => simp
  | cons a t ih =>
      cases a with
      | mk k2 v2 =>
          simp only [List.lookup, List.map_cons, List.mem_cons]
          cases hk : k == k2 with
          | true =>
              have hk2 : k = k2 := eq_of_beq hk
              simp [hk2]
          | false =>
              have hk2 : ¬ k = k2 := by simpa using hk
              simp [ih, hk2]

theorem mem_of_lookup_eq_some {α β : Type} [BEq α] [LawfulBEq α]
    {l : List (α × β)} {k : α} {b : β} (h : l.lookup k = some b) :
    (k, b) ∈ l := by
  induction l with
  | nil => exact absurd h (by simp)
  | cons a t ih =>
      cases a with
      | mk k2 v2 =>
          simp only [List.lookup] at h
          cases hk : k == k2 with
          | true =>
              rw [hk] at h
              have hk2 : k = k2 := eq_of_beq hk
              cases h
              exact hk2 ▸ List.mem_cons_self _ _
          | false =>
              rw [hk] at h
              exact List.mem_cons_of_mem _ (ih h)

theorem lookup_eq_some_of_mem {α β : Type} [BEq α] [LawfulBEq α]
    (l : List (α × β)) (k : α) (b : β) (hnd : (l.map Prod.fst).Nodup)
    (h : (k, b) ∈ l) : l.lookup k = some b := by
  induction l with
  | nil => exact absurd h (by simp)
  | cons a t ih =>
      cases a with
      | mk k2 v2 =>
          rcases List.mem_cons.mp h with heq | hmem
          · cases heq
            simp [List.lookup]
          · have hk : ¬ k = k2 := by
              intro hkk
              subst hkk
              exact (List.nodup_cons.mp hnd).1
                (List.mem_map.mpr ⟨(k, b), hmem, rfl⟩)
            have hkb : (k == k2) = false := by simpa using hk
            simp only [List.lookup, hkb]
            exact ih (List.nodup_cons.mp hnd).2 hmem

namespace FS

theorem fileAt_write_self (fs : FS) (p : Path) (c : String) :
    (fs.write p c).fileAt p = some c := by
  simp [write, fileAt, List.lookup]

theorem fileAt_write_ne (fs : FS) (p q : Path) (c : String) (h : ¬ q = p) :
    (fs.write p c).fileAt q = fs.fileAt q := by
  unfold write fileAt
  simp only [List.lookup]
  have : (q == p) = false := by simpa using h
  rw [this]
  exact lookup_filter_key_ne fs.files p q h

theorem pathExists_write_self (fs : FS) (p : Path) (c : String) :
    (fs.write p c).pathExists p = true := by
  simp [pathExists, fileAt_write_self]

theorem pathExists_write_mono (fs : FS) (p q : Path) (c : String)
    (h : fs.pathExists q = true) : (fs.write p c).pathExists q = true := by
  by_cases hqp : q = p
  · subst hqp; exact pathExists_write_self fs q c
  · unfold pathExists at h ⊢
    rw [fileAt_write_ne fs p q c hqp]
    simpa [write] using h

theorem mem_files_write (fs : FS) (q : Path) (d : String) (p : Path)
    (c : String) (h : (p, c) ∈ (fs.write q d).files) :
    (p, c) ∈ fs.files ∨ p = q := by
  simp only [write, List.mem_cons, Prod.mk.injEq] at h
  rcases h with ⟨hp, _⟩ | h
  · right; exact hp
  · left; exact (List.mem_filter.mp h).1

end FS

namespace _ZipArchive

theorem writeAll_nil (d : Path) (fs : FS) : writeAll d [] fs = fs := rfl

theorem writeAll_cons (d : Path) (a : Entry) (t : List Entry) (fs : FS) :
    writeAll d (a :: t) fs =
      writeAll d t (fs.write (Zipfile.extractTarget d a.1) a.2) := rfl

theorem mem_files_writeAll (d : Path) (l : List Entry) (fs : FS) (p : Path)
    (c : String) (h : (p, c) ∈ (writeAll d l fs).files) :
    (p, c) ∈ fs.files ∨ ∃ e ∈ l, p = Zipfile.extractTarget d e.1 := by
  induction l generalizing fs with
  | nil => exact Or.inl (by simpa [writeAll] using h)
  | cons a t ih =>
      rw [writeAll_cons] at h
      rcases ih _ h with h2 | h2
      · rcases FS.mem_files_write _ _ _ _ _ h2 with h3 | h3
        · exact Or.inl h3
        · exact Or.inr ⟨a, List.mem_cons_self a t, h3⟩
      · rcases h2 with ⟨e, he, hp⟩
        exact Or.inr ⟨e, List.mem_cons_of_mem a he, hp⟩

theorem writeAll_pathExists_mono (d : Path) (l : List Entry) (fs : FS)
    (p : Path) (h : fs.pathExists p = true) :
    (writeAll d l fs).pathExists p = true := by
  induction l generalizing fs with
  | nil => simpa [writeAll] using h
  | cons a t ih =>
      rw [writeAll_cons]
      exact ih _ (FS.pathExists_write_mono _ _ _ _ h)

theorem writeAll_pathExists_of_target (d : Path) (l : List Entry) (fs : FS)
    (p : Path) (h : ∃ e ∈ l, Zipfile.extractTarget d e.1 = p) :
    (writeAll d l fs).pathExists p = true := by
  induction l generalizing fs with
  | nil => simp at h
  | cons a t ih =>
      rw [writeAll_cons]
      rcases h with ⟨e, he, hp⟩
      rcases List.mem_cons.mp he with rfl | he2
      · subst hp
        exact writeAll_pathExists_mono _ _ _ _
          (FS.pathExists_write_self fs _ e.2)
      · exact ih _ ⟨e, he2, hp⟩

theorem writeAll_fileAt_of_no_target (d : Path) (l : List Entry) (fs : FS)
    (p : Path) (h : ∀ e ∈ l, ¬ Zipfile.extractTarget d e.1 = p) :
    (writeAll d l fs).fileAt p = fs.fileAt p := by
  induction l generalizing fs with
  | nil => rfl
  | cons a t ih =>
      rw [writeAll_cons]
      rw [ih _ (fun e he => h e (List.mem_cons_of_mem a he))]
      exact FS.fileAt_write_ne fs _ p a.2
        (fun hq => h a (List.mem_cons_self a t) hq.symm)

theorem writeAll_fileAt_of_mem (d : Path) (l : List Entry) (fs : FS)
    (hnd : (l.map (fun e => Zipfile.extractTarget d e.1)).Nodup)
    (e : Entry) (he : e ∈ l) :
    (writeAll d l fs).fileAt (Zipfile.extractTarget d e.1) = some e.2 := by
  induction l generalizing fs with
  | nil => cases he
  | cons a t ih =>
      rw [writeAll_cons]
      rcases List.mem_cons.mp he with rfl | he2
      · have hnm : ∀ e2 ∈ t,
            ¬ Zipfile.extractTarget d e2.1 = Zipfile.extractTarget d e.1 := by
          intro e2 he2 heq
          exact (List.nodup_cons.mp hnd).1
            (List.mem_map.mpr ⟨e2, he2, heq⟩)
        rw [writeAll_fileAt_of_no_target d t _ _ hnm]
        exact FS.fileAt_write_self fs _ e.2
      · exact ih _ (List.nodup_cons.mp hnd).2 he2

theorem mem_save_iff (uuid : String) (tree : List Entry) (e : Entry) :
    e ∈ save uuid tree ↔
    ∃ comps content, e = (uuid :: comps, content) ∧
      (comps, content) ∈ tree ∧
      ∀ c ∈ comps, ¬ Py.isHidden c = true := by
  constructor
  · intro he
    rcases List.mem_map.mp he with ⟨a, ha, rfl⟩
    have hmem := (List.mem_filter.mp ha).1
    have hall := (List.mem_filter.mp ha).2
    refine ⟨a.1, a.2, rfl, hmem, ?_⟩
    intro c hc
    have := List.all_eq_true.mp hall c hc
    simpa using this
  · rintro ⟨comps, content, rfl, hmem, hnh⟩
    refine List.mem_map.mpr ⟨(comps, content), List.mem_filter.mpr
      ⟨hmem, List.all_eq_true.mpr (fun c hc => by simpa using hnh c hc)⟩, rfl⟩

end _ZipArchive

/-- C2: for every container, every entry written by _ZipArchive.extract
lands at a path having the parent of the destination as a prefix, even when
the stored entry name holds parent-directory segments; any file of the
result is either a pre-existing file or lies under the destination parent.
This is unconditional in the container contents: a hard invariant. -/
theorem extract_stays_under_destination_parent (entries : List Entry)
    (uuid : String) (filepath : Path) (fs fs2 : FS)
    (hx : _ZipArchive.extract entries uuid filepath fs = some fs2)
    (p : Path) (c : String) (hp : (p, c) ∈ fs2.files) :
    (p, c) ∈ fs.files ∨ filepath.dropLast <+: p := by
  unfold _ZipArchive.extract at hx
  by_cases hb : filepath.getLast? = some uuid
  · rw [if_pos hb] at hx
    have hx2 := Option.some.inj hx
    subst hx2
    rcases _ZipArchive.mem_files_writeAll _ _ _ _ _ hp with h | ⟨e, _, hpe⟩
    · exact Or.inl h
    · subst hpe
      exact Or.inr (List.prefix_append _ _)
  · rw [if_neg hb] at hx
    exact absurd hx (by simp)

/-- Witness for C2 at a concrete container holding a parent-directory
entry. -/
theorem extract_stays_under_destination_parent_witness :
    ((["tmp", "u1", "evil"] : Path), "y") ∈ (FS.mk [] []).files ∨
      (["tmp"] : Path) <+: ["tmp", "u1", "evil"] :=
  extract_stays_under_destination_parent [(["u1", "..", "evil"], "y")] "u1"
    ["tmp", "u1"] ⟨[], []⟩ ⟨[(["tmp", "u1", "evil"], "y")], []⟩ (by rfl)
    ["tmp", "u1", "evil"] "y" (by simp)

/-- C5: a version tag absent from the format registry resolves to none in
get_format_class without an error, and peek, load and load_raw each turn
that absence into the futuristic-archive error carrying the declared
framework version of the archive. -/
theorem unregistered_version_resolution (info : ArchiveInfo)
    (st : Archiver.StepOutcomes) (filepath : Path) (c : Cache.State)
    (hv : Archiver._FORMAT_REGISTRY.lookup info.version = none) :
    Archiver.get_format_class info.version = none ∧
    (Archiver.peek info c).1 =
      .error (.futuristicArchive info.path info.framework_version
        info.version) ∧
    (Archiver.load info st c).1 =
      .error (.futuristicArchive info.path info.framework_version
        info.version) ∧
    (Archiver.load_raw info filepath c).1 =
      .error (.futuristicArchive filepath info.framework_version
        info.version) := by
  have hgf : Archiver.get_format_class info.version = none := by
    simp [Archiver.get_format_class, hv]
  refine ⟨hgf, ?_, ?_, ?_⟩ <;>
    simp [Archiver.peek, Archiver.load, Archiver.loadTry, Archiver.load_raw,
      Archiver.rollback, Archiver._destroy_temp_path,
      Archiver._futuristic_archive_error, hgf]

/-- Witness for C5 at the unregistered version tag 6. -/
theorem unregistered_version_resolution_witness :
    Archiver.get_format_class "6" = none ∧
    (Archiver.peek ⟨["a.qza"], "u1", "6", "2077.1.0"⟩ []).1 =
      .error (.futuristicArchive ["a.qza"] "2077.1.0" "6") := by
  have h := unregistered_version_resolution ⟨["a.qza"], "u1", "6", "2077.1.0"⟩
    ⟨true, true, true⟩ [] [] (by decide)
  exact ⟨h.1, h.2.1⟩

/-- C6: peek threads the cache state through unchanged, both on success and
on the unknown-version error, and in the unknown-version case it still
raises the futuristic-archive error; in particular the allocation count of
every uuid is the same before and after. -/
theorem peek_preserves_cache_allocations (info : ArchiveInfo)
    (c : Cache.State) :
    (Archiver.peek info c).2 = c ∧
    (∀ u, Cache.allocsFor (Archiver.peek info c).2 u = Cache.allocsFor c u) ∧
    (Archiver.get_format_class info.version = none →
      (Archiver.peek info c).1 =
        .error (.futuristicArchive info.path info.framework_version
          info.version)) := by
  have h2 : (Archiver.peek info c).2 = c := by
    cases h : Archiver.get_format_class info.version <;>
      simp [Archiver.peek, h]
  refine ⟨h2, fun u => by rw [h2], fun h => ?_⟩
  simp [Archiver.peek, h, Archiver._futuristic_archive_error]

/-- Witness for C6 at an unknown version tag: no allocation change and the
error is still raised. -/
theorem peek_preserves_cache_allocations_witness :
    (Archiver.peek ⟨["b.qza"], "u2", "7", "2099.1.0"⟩ ["u2"]).2 = ["u2"] ∧
    (Archiver.peek ⟨["b.qza"], "u2", "7", "2099.1.0"⟩ ["u2"]).1 =
      .error (.futuristicArchive ["b.qza"] "2099.1.0" "7") := by
  have h := peek_preserves_cache_allocations ⟨["b.qza"], "u2", "7",
    "2099.1.0"⟩ ["u2"]
  exact ⟨h.1, h.2.2 (by decide)⟩

/-- C10: when the destination already contains an entry named after the
uuid of the artifact, Archiver.extract fails with the file-exists error of
os.makedirs before copying any container entry: the filesystem is returned
unchanged. -/
theorem archiver_extract_errors_on_existing_destination
    (entries : List Entry) (info : ArchiveInfo) (dest : Path) (fs : FS)
    (h : fs.pathExists (dest ++ [info.uuid]) = true) :
    Archiver.extract entries info dest fs = (.error .fileExistsError, fs) := by
  simp [Archiver.extract, h]

/-- Witness for C10 at a destination already holding the uuid directory. -/
theorem archiver_extract_errors_on_existing_destination_witness :
    Archiver.extract [(["u1", "VERSION"], "v")] ⟨["a.qza"], "u1", "5", "x"⟩
      ["dest"] ⟨[], [["dest", "u1"]]⟩ =
      (.error .fileExistsError, ⟨[], [["dest", "u1"]]⟩) :=
  archiver_extract_errors_on_existing_destination _ _ _ _ (by decide)

/-- C3 counterexample: the directory backend variant constructs successfully
from a path whose basename is not a valid version 4 UUID, with that invalid
name as the uuid; the claimed construction-time invalid-UUID failure does
not happen for this variant. -/
theorem noop_archive_accepts_invalid_uuid_root :
    _NoOpArchive.init ["cache", "pool", "xyz"]
        "QIIME 2\narchive: 5\nframework: 2023.2.0\n" =
      .ok ⟨["cache", "pool", "xyz"], "xyz", "5", "2023.2.0"⟩ ∧
    is_uuid4 "xyz" = false :=
  ⟨rfl, rfl⟩

/-- C3 (amended): construction-time root validation holds for the shared
discovery used by the container variant — a missing path, no visible root,
several visible roots, and a non-UUID single root each fail with their
error, and a valid single root is returned — while the directory variant
performs no validation at all: it constructs successfully from any path
whose VERSION text parses, taking the path basename as the uuid. -/
theorem root_discovery_validation (entries : List String) (u : String)
    (path : Path) (text : String) (v fv : String) :
    (Archive._get_uuid false entries = .error .notAFilepath) ∧
    (Archive.visibleRoots entries = [] →
      Archive._get_uuid true entries = .error .missingRoot) ∧
    (∀ r b t, Archive.visibleRoots entries = r :: b :: t →
      Archive._get_uuid true entries =
        .error (.multipleRoots (r :: b :: t))) ∧
    (Archive.visibleRoots entries = [u] →
      Archive._get_uuid true entries =
        (if is_uuid4 u then .ok u else .error (.invalidUuidRoot u))) ∧
    (Archive._get_versions text = .ok (v, fv) →
      _NoOpArchive.init path text = .ok ⟨path, path.getLastD "", v, fv⟩) := by
  refine ⟨by simp [Archive._get_uuid], ?_, ?_, ?_, ?_⟩
  · intro h
    simp [Archive._get_uuid, h]
  · intro r b t h
    simp [Archive._get_uuid, h]
  · intro h
    cases hu : is_uuid4 u <;> simp [Archive._get_uuid, h, hu]
  · intro h
    simp [_NoOpArchive.init, _NoOpArchive._get_uuid, h]

/-- Witness for C3 (amended): a single visible valid-UUID root among hidden
entries is discovered, and the directory variant constructs with the
basename as uuid. -/
theorem root_discovery_validation_witness :
    Archive._get_uuid true
        [".hidden", "770509e6-85f4-432c-9663-cdc04eb07db2"] =
      (if is_uuid4 "770509e6-85f4-432c-9663-cdc04eb07db2" then
        .ok "770509e6-85f4-432c-9663-cdc04eb07db2"
      else .error (.invalidUuidRoot "770509e6-85f4-432c-9663-cdc04eb07db2")) ∧
    _NoOpArchive.init ["pool", "d1"] "QIIME 2\narchive: 4\nframework: 2.0\n" =
      .ok ⟨["pool", "d1"], "d1", "4", "2.0"⟩ := by
  have h := root_discovery_validation
    [".hidden", "770509e6-85f4-432c-9663-cdc04eb07db2"]
    "770509e6-85f4-432c-9663-cdc04eb07db2" ["pool", "d1"]
    "QIIME 2\narchive: 4\nframework: 2.0\n" "4" "2.0"
  exact ⟨h.2.2.2.1 (by decide), h.2.2.2.2 (by rfl)⟩

/-- C4 counterexample: two texts that deviate from the exact VERSION
template — one whose trailing newline-split segment is EXTRA instead of
empty, one whose field names are foo and bar instead of archive and
framework — are both parsed successfully, so the parser does not raise on
every deviation from the template. -/
theorem version_text_deviations_accepted :
    Archive._get_versions "QIIME 2\narchive: 5\nframework: 2023.2.0\nEXTRA" =
      .ok ("5", "2023.2.0") ∧
    (Py.split '\n'
        "QIIME 2\narchive: 5\nframework: 2023.2.0\nEXTRA".data).getLast? ≠
      some [] ∧
    Archive._get_versions "QIIME 2\nfoo: 5\nbar: 2023.2.0\n" =
      .ok ("5", "2023.2.0") ∧
    (Py.split '\n' "QIIME 2\nfoo: 5\nbar: 2023.2.0\n".data).get? 1 =
      some "foo: 5".data ∧
    "foo: 5".data.take 8 ≠ "archive:".data :=
  ⟨rfl, by decide, rfl, by decide, by decide⟩

/-- C4 (amended): the parser accepts a text exactly when it splits on the
newline character into exactly four segments whose first strips to the
literal QIIME 2 header and whose second and third each contain a colon — the
literal archive and framework field names and the emptiness of the trailing
segment are not checked — and the exact template instance of the spec parses
to its version pair. -/
theorem version_text_acceptance (text : String) :
    ((∃ p, Archive._get_versions text = .ok p) ↔
      Archive.versionTextAccepted text) ∧
    Archive._get_versions "QIIME 2\narchive: 5\nframework: 2023.2.0\n" =
      .ok ("5", "2023.2.0") := by
  refine ⟨?_, rfl⟩
  unfold Archive._get_versions Archive.versionTextAccepted
  rcases hs : Py.split '\n' text.data with _ | ⟨s1, _ | ⟨s2, _ | ⟨s3, _ |
    ⟨s4, _ | ⟨s5, rest⟩⟩⟩⟩⟩ <;> simp only [hs]
  · simp
  · simp
  · simp
  · simp
  · constructor
    · rintro ⟨p, hp⟩
      by_cases hh : String.mk (Py.strip s1) = "QIIME 2"
      · rw [if_neg (by simpa using hh)] at hp
        cases hg2 : (Py.split ':' s2).get? 1 with
        | none => rw [hg2] at hp; exact absurd hp (by simp)
        | some x2 =>
            cases hg3 : (Py.split ':' s3).get? 1 with
            | none => rw [hg2, hg3] at hp; exact absurd hp (by simp)
            | some x3 =>
                have h2 : ¬ (Py.split ':' s2).length ≤ 1 := by
                  intro hle
                  rw [List.get?_eq_none.mpr hle] at hg2
                  exact Option.noConfusion hg2
                have h3 : ¬ (Py.split ':' s3).length ≤ 1 := by
                  intro hle
                  rw [List.get?_eq_none.mpr hle] at hg3
                  exact Option.noConfusion hg3
                exact ⟨s1, s2, s3, s4, rfl, hh, by omega, by omega⟩
      · rw [if_pos (by simpa using hh)] at hp
        exact absurd hp (by simp)
    · rintro ⟨h, v, f, e, heq, hhd, h2, h3⟩
      obtain ⟨rfl, rfl, rfl, rfl⟩ : s1 = h ∧ s2 = v ∧ s3 = f ∧ s4 = e := by
        simpa using heq
      rw [if_neg (by simpa using hhd)]
      cases hg2 : (Py.split ':' s2).get? 1 with
      | none =>
          have := List.get?_eq_none.mp hg2
          omega
      | some x2 =>
          cases hg3 : (Py.split ':' s3).get? 1 with
          | none =>
              have := List.get?_eq_none.mp hg3
              omega
          | some x3 => exact ⟨_, rfl⟩
  · simp

/-- Witness for C4 (amended) at the exact template instance of the spec. -/
theorem version_text_acceptance_witness :
    Archive._get_versions "QIIME 2\narchive: 5\nframework: 2023.2.0\n" =
      .ok ("5", "2023.2.0") :=
  (version_text_acceptance "QIIME 2\narchive: 5\nframework: 2023.2.0\n").2

theorem validate_checksums_true_eq (c : String)
    (digests manifest : List (String × String)) :
    Archiver.validate_checksums true c digests manifest =
      ⟨(Archiver.observedDigests c digests).filter
          (fun x => (manifest.lookup x.1).isNone),
        manifest.filter (fun x =>
          ((Archiver.observedDigests c digests).lookup x.1).isNone),
        manifest.filterMap (fun x =>
          match (Archiver.observedDigests c digests).lookup x.1 with
          | some o => if ¬ o = x.2 then some (x.1, (x.2, o)) else none
          | none => none)⟩ := rfl

/-- C7: validate_checksums computes exactly the three-way diff of the
observed digests (every file except the manifest itself) against the
manifest entries: added holds precisely the observed pairs whose path is
absent from the manifest, removed precisely the manifest pairs whose path is
absent from the observed set, changed precisely the (path, expected,
observed) triples present on both sides with differing digests; lookup-equal
observed and manifest content yields three empty maps, and a format without
a checksum manifest yields the empty diff rather than an error. -/
theorem validate_checksums_three_way_diff (checksumFile : String)
    (digests manifest : List (String × String))
    (hd : ((Archiver.observedDigests checksumFile digests).map
      Prod.fst).Nodup)
    (hm : (manifest.map Prod.fst).Nodup) :
    (∀ p d, (p, d) ∈
        (Archiver.validate_checksums true checksumFile digests
          manifest).added ↔
      ((p, d) ∈ Archiver.observedDigests checksumFile digests ∧
        p ∉ manifest.map Prod.fst)) ∧
    (∀ p d, (p, d) ∈
        (Archiver.validate_checksums true checksumFile digests
          manifest).removed ↔
      ((p, d) ∈ manifest ∧
        p ∉ (Archiver.observedDigests checksumFile digests).map Prod.fst)) ∧
    (∀ p ex ob, (p, (ex, ob)) ∈
        (Archiver.validate_checksums true checksumFile digests
          manifest).changed ↔
      ((p, ex) ∈ manifest ∧
        (p, ob) ∈ Archiver.observedDigests checksumFile digests ∧
        ¬ ob = ex)) ∧
    ((∀ p, (Archiver.observedDigests checksumFile digests).lookup p =
        manifest.lookup p) →
      Archiver.validate_checksums true checksumFile digests manifest =
        ⟨[], [], []⟩) ∧
    (Archiver.validate_checksums false checksumFile digests manifest =
      ⟨[], [], []⟩) := by
  refine ⟨?_, ?_, ?_, ?_, rfl⟩
  · intro p d
    rw [validate_checksums_true_eq]
    simp only [List.mem_filter]
    rw [← lookup_eq_none_iff_not_mem_keys manifest p]
    simp [Option.isNone_iff_eq_none]
  · intro p d
    rw [validate_checksums_true_eq]
    simp only [List.mem_filter]
    rw [← lookup_eq_none_iff_not_mem_keys
      (Archiver.observedDigests checksumFile digests) p]
    simp [Option.isNone_iff_eq_none]
  · intro p ex ob
    rw [validate_checksums_true_eq]
    simp only [List.mem_filterMap]
    constructor
    · rintro ⟨⟨p2, ex2⟩, hmem, hf⟩
      cases hlk : (Archiver.observedDigests checksumFile digests).lookup p2
        with
      | none =>
          simp only [hlk] at hf
          exact Option.noConfusion hf
      | some o =>
          simp only [hlk] at hf
          by_cases ho : ¬ o = ex2
          · rw [if_pos ho] at hf
            obtain ⟨rfl, rfl, rfl⟩ :
                p2 = p ∧ ex2 = ex ∧ o = ob := by
              simpa using hf
            exact ⟨hmem, mem_of_lookup_eq_some hlk, fun hoe => ho hoe⟩
          · rw [if_neg ho] at hf
            exact absurd hf (by simp)
    · rintro ⟨hmem, hobs, hne⟩
      refine ⟨(p, ex), hmem, ?_⟩
      rw [lookup_eq_some_of_mem _ p ob hd hobs]
      simp [hne]
  · intro heq
    have hobs_lookup : ∀ p d,
        (p, d) ∈ Archiver.observedDigests checksumFile digests →
        manifest.lookup p ≠ none := by
      intro p d hpd hnone
      have : p ∉ (Archiver.observedDigests checksumFile digests).map
          Prod.fst :=
        (lookup_eq_none_iff_not_mem_keys _ p).mp ((heq p).symm ▸ hnone)
      exact this (List.mem_map.mpr ⟨(p, d), hpd, rfl⟩)
    have hman_lookup : ∀ p d, (p, d) ∈ manifest →
        (Archiver.observedDigests checksumFile digests).lookup p ≠ none := by
      intro p d hpd hnone
      rw [heq p] at hnone
      exact (lookup_eq_none_iff_not_mem_keys _ p).mp hnone
        (List.mem_map.mpr ⟨(p, d), hpd, rfl⟩)
    rw [validate_checksums_true_eq]
    simp only [Archiver.ChecksumDiff.mk.injEq]
    refine ⟨?_, ?_, ?_⟩
    · exact List.filter_eq_nil_iff.mpr (fun x hx => by
        simp [Option.isNone_iff_eq_none, hobs_lookup x.1 x.2 hx])
    · exact List.filter_eq_nil_iff.mpr (fun x hx => by
        simp [Option.isNone_iff_eq_none, hman_lookup x.1 x.2 hx])
    · refine List.filterMap_eq_nil_iff.mpr (fun x hx => ?_)
      have hx2 : manifest.lookup x.1 = some x.2 :=
        lookup_eq_some_of_mem manifest x.1 x.2 hm (by
          cases x
          exact hx)
      rw [heq x.1, hx2]
      simp

/-- Witness for C7 at a concrete observed set and manifest holding one
unchanged, one changed, one added and one removed path. -/
theorem validate_checksums_three_way_diff_witness :
    (("b", ("dOLD", "d2")) ∈
      (Archiver.validate_checksums true "checksums.md5"
        [("a", "d1"), ("b", "d2"), ("checksums.md5", "dx"), ("c", "d3")]
        [("a", "d1"), ("b", "dOLD"), ("d", "d4")]).changed ↔
    (("b", "dOLD") ∈ [("a", "d1"), ("b", "dOLD"), ("d", "d4")] ∧
      ("b", "d2") ∈ Archiver.observedDigests "checksums.md5"
        [("a", "d1"), ("b", "d2"), ("checksums.md5", "dx"), ("c", "d3")] ∧
      ¬ "d2" = "dOLD")) ∧
    Archiver.validate_checksums false "checksums.md5"
      [("a", "d1"), ("b", "d2"), ("checksums.md5", "dx"), ("c", "d3")]
      [("a", "d1"), ("b", "dOLD"), ("d", "d4")] = ⟨[], [], []⟩ := by
  have h := validate_checksums_three_way_diff "checksums.md5"
    [("a", "d1"), ("b", "d2"), ("checksums.md5", "dx"), ("c", "d3")]
    [("a", "d1"), ("b", "dOLD"), ("d", "d4")] (by decide) (by decide)
  exact ⟨h.2.2.1 "b" "dOLD" "d2", h.2.2.2.2⟩

theorem aliasName_ne (u : String) : ¬ Cache.aliasName u = u := by
  intro h
  have hd := congrArg String.data h
  rw [Cache.aliasName, String.data_append] at hd
  have hlen := congrArg List.length hd
  rw [List.length_append] at hlen
  simp at hlen

theorem load_failure_eq (info : ArchiveInfo) (st : Archiver.StepOutcomes)
    (c0 : Cache.State) (h1 : info.uuid ∉ c0)
    (hf : Archiver.get_format_class info.version = none ∨
      st.mountOk = false ∨ st.renameOk = false ∨ st.bindOk = false) :
    Archiver.load info st c0 =
      (.error (Archiver.loadFirstError info st), c0) := by
  cases hfc : Archiver.get_format_class info.version with
  | none =>
      simp [Archiver.load, Archiver.loadTry, Archiver.rollback,
        Archiver._destroy_temp_path, Cache.remove, Cache._allocate,
        Archiver.loadFirstError, hfc]
  | some F =>
      cases hmo : st.mountOk with
      | false =>
          simp [Archiver.load, Archiver.loadTry, Archiver.rollback,
            Archiver._destroy_temp_path, Cache.remove, Cache._allocate,
            Archiver.loadFirstError, hfc, hmo]
      | true =>
          cases hre : st.renameOk with
          | false =>
              simp [Archiver.load, Archiver.loadTry, Archiver.rollback,
                Archiver._destroy_temp_path, Cache.remove, Cache._allocate,
                Archiver.loadFirstError, hfc, hmo, hre]
          | true =>
              cases hbi : st.bindOk with
              | true => simp_all
              | false =>
                  have e2 : (Cache.aliasName info.uuid :: c0).erase
                      info.uuid = Cache.aliasName info.uuid :: c0 := by
                    rw [List.erase_cons_tail
                      (not_beq_of_ne (aliasName_ne info.uuid)),
                      List.erase_of_not_mem h1]
                  simp [Archiver.load, Archiver.loadTry, Archiver.rollback,
                    Archiver._destroy_temp_path, Cache.remove,
                    Cache._allocate, Cache._rename_to_data,
                    Archiver.loadFirstError, hfc, hmo, hre, hbi,
                    List.erase_cons_head, e2]

theorem from_data_failure_eq (uuid : String) (st : Archiver.StepOutcomes)
    (c0 : Cache.State) (h1 : uuid ∉ c0)
    (hf : st.mountOk = false ∨ st.renameOk = false ∨ st.bindOk = false) :
    Archiver.from_data uuid st c0 =
      (.error (Archiver.fromDataFirstError st), c0) := by
  cases hmo : st.mountOk with
  | false =>
      simp [Archiver.from_data, Archiver.fromDataTry, Archiver.rollback,
        Archiver._destroy_temp_path, Cache.remove, Cache._allocate,
        Archiver.fromDataFirstError, hmo]
  | true =>
      cases hre : st.renameOk with
      | false =>
          simp [Archiver.from_data, Archiver.fromDataTry, Archiver.rollback,
            Archiver._destroy_temp_path, Cache.remove, Cache._allocate,
            Archiver.fromDataFirstError, hmo, hre]
      | true =>
          cases hbi : st.bindOk with
          | true => simp_all
          | false =>
              have e2 : (Cache.aliasName uuid :: c0).erase uuid =
                  Cache.aliasName uuid :: c0 := by
                rw [List.erase_cons_tail
                  (not_beq_of_ne (aliasName_ne uuid)),
                  List.erase_of_not_mem h1]
              simp [Archiver.from_data, Archiver.fromDataTry,
                Archiver.rollback, Archiver._destroy_temp_path, Cache.remove,
                Cache._allocate, Cache._rename_to_data,
                Archiver.fromDataFirstError, hmo, hre, hbi,
                List.erase_cons_head, e2]

/-- C1: whenever a step of load or of from_data after the temporary cache
allocation fails — format resolution, mount or write, rename to stable, or
the post-rename binding — the whole cache state is restored to what it was
before the call: the temporary allocation and, when the rename already
happened, the post-rename alias are both released, so zero allocations
remain for the uuid, and the returned error is exactly the original error of
the first failing step, not replaced by any cleanup error. -/
theorem load_and_from_data_roll_back_on_failure (info : ArchiveInfo)
    (st st2 : Archiver.StepOutcomes) (c0 c2 : Cache.State) (uuid2 : String)
    (h1 : info.uuid ∉ c0)
    (h01 : Cache.allocsFor c0 info.uuid = 0)
    (hf1 : Archiver.get_format_class info.version = none ∨
      st.mountOk = false ∨ st.renameOk = false ∨ st.bindOk = false)
    (h2 : uuid2 ∉ c2)
    (h02 : Cache.allocsFor c2 uuid2 = 0)
    (hf2 : st2.mountOk = false ∨ st2.renameOk = false ∨
      st2.bindOk = false) :
    ((Archiver.load info st c0).2 = c0 ∧
      Cache.allocsFor (Archiver.load info st c0).2 info.uuid = 0 ∧
      (Archiver.load info st c0).1 =
        .error (Archiver.loadFirstError info st)) ∧
    ((Archiver.from_data uuid2 st2 c2).2 = c2 ∧
      Cache.allocsFor (Archiver.from_data uuid2 st2 c2).2 uuid2 = 0 ∧
      (Archiver.from_data uuid2 st2 c2).1 =
        .error (Archiver.fromDataFirstError st2)) := by
  have hl := load_failure_eq info st c0 h1 hf1
  have hfd := from_data_failure_eq uuid2 st2 c2 h2 hf2
  rw [hl, hfd]
  exact ⟨⟨rfl, h01, rfl⟩, ⟨rfl, h02, rfl⟩⟩

/-- Witness for C1: a load failing at the post-rename bind step and a
from_data failing at the write step, each returning the original error with
the cache restored. -/
theorem load_and_from_data_roll_back_on_failure_witness :
    ((Archiver.load ⟨["a.qza"], "u1", "5", "2023.2.0"⟩
        ⟨true, true, false⟩ ["other"]).2 = ["other"] ∧
      Cache.allocsFor (Archiver.load ⟨["a.qza"], "u1", "5", "2023.2.0"⟩
        ⟨true, true, false⟩ ["other"]).2 "u1" = 0 ∧
      (Archiver.load ⟨["a.qza"], "u1", "5", "2023.2.0"⟩
        ⟨true, true, false⟩ ["other"]).1 =
        .error (Archiver.loadFirstError ⟨["a.qza"], "u1", "5", "2023.2.0"⟩
          ⟨true, true, false⟩)) ∧
    ((Archiver.from_data "u2" ⟨false, true, true⟩ []).2 = [] ∧
      Cache.allocsFor (Archiver.from_data "u2"
        ⟨false, true, true⟩ []).2 "u2" = 0 ∧
      (Archiver.from_data "u2" ⟨false, true, true⟩ []).1 =
        .error (Archiver.fromDataFirstError ⟨false, true, true⟩)) :=
  load_and_from_data_roll_back_on_failure ⟨["a.qza"], "u1", "5", "2023.2.0"⟩
    ⟨true, true, false⟩ ⟨false, true, true⟩ ["other"] [] "u2"
    (by decide) (by decide) (by decide) (by decide) (by decide) (by decide)

/-- C9: mount of the container backend is idempotent — when the destination
already holds a VERSION resource, mount skips materialization and returns
the destination record with the filesystem untouched, and mounting the same
backend into the same destination twice equals mounting it once, for any
well-formed container (one whose entries include the VERSION resource of its
uuid, the uuid being an ordinary name). -/
theorem mount_is_idempotent (entries : List Entry) (info : ArchiveInfo)
    (filepath : Path) (fs fs1 : FS) (r : ArchiveRecord) (vcontent : String)
    (hlast : filepath.getLast? = some info.uuid)
    (hv : ([info.uuid, "VERSION"], vcontent) ∈ entries)
    (hu0 : ¬ info.uuid = "") (hu1 : ¬ info.uuid = ".")
    (hu2 : ¬ info.uuid = "..") :
    (fs.pathExists (filepath ++ ["VERSION"]) = true →
      _ZipArchive.mount entries info filepath fs =
        some (fs, ⟨filepath, filepath ++ ["VERSION"], info.uuid,
          info.version, info.framework_version⟩)) ∧
    (_ZipArchive.mount entries info filepath fs = some (fs1, r) →
      _ZipArchive.mount entries info filepath fs1 = some (fs1, r)) := by
  constructor
  · intro hex
    simp [_ZipArchive.mount, hex]
  · intro hm
    have hne : filepath ≠ [] := by
      intro h
      rw [h] at hlast
      exact Option.noConfusion hlast
    have hfp : filepath.dropLast ++ [info.uuid] = filepath := by
      have hg : filepath.getLast hne = info.uuid := by
        rw [List.getLast?_eq_getLast filepath hne] at hlast
        exact Option.some.inj hlast
      rw [← hg]
      exact List.dropLast_append_getLast hne
    by_cases hex : fs.pathExists (filepath ++ ["VERSION"]) = true
    · rw [_ZipArchive.mount, if_pos hex] at hm
      obtain ⟨rfl, rfl⟩ : fs = fs1 ∧
          (⟨filepath, filepath ++ ["VERSION"], info.uuid, info.version,
            info.framework_version⟩ : ArchiveRecord) = r := by
        simpa using hm
      rw [_ZipArchive.mount, if_pos hex]
    · rw [_ZipArchive.mount, if_neg hex, _ZipArchive.extract,
        if_pos hlast, Option.map_some'] at hm
      obtain ⟨hfs1, rfl⟩ : _ZipArchive.writeAll filepath.dropLast
          (entries.filter
            (fun e => _ZipArchive.nameMatches info.uuid e.1)) fs = fs1 ∧
          (⟨filepath, filepath ++ ["VERSION"], info.uuid, info.version,
            info.framework_version⟩ : ArchiveRecord) = r := by
        simpa using hm
      have hsel : ([info.uuid, "VERSION"], vcontent) ∈ entries.filter
          (fun e => _ZipArchive.nameMatches info.uuid e.1) :=
        List.mem_filter.mpr ⟨hv, by
          simp [_ZipArchive.nameMatches, List.isPrefixOf_iff_prefix]⟩
      have htgt : Zipfile.extractTarget filepath.dropLast
          [info.uuid, "VERSION"] = filepath ++ ["VERSION"] := by
        rw [Zipfile.extractTarget]
        have hsan : Zipfile.sanitize [info.uuid, "VERSION"] =
            [info.uuid, "VERSION"] := by
          simp [Zipfile.sanitize, hu0, hu1, hu2]
        rw [hsan, show ([info.uuid, "VERSION"] : Path) =
          [info.uuid] ++ ["VERSION"] from rfl, ← List.append_assoc, hfp]
      have hver : fs1.pathExists (filepath ++ ["VERSION"]) = true := by
        rw [← hfs1]
        exact _ZipArchive.writeAll_pathExists_of_target _ _ _ _
          ⟨([info.uuid, "VERSION"], vcontent), hsel, htgt⟩
      rw [_ZipArchive.mount, if_pos hver]

/-- Witness for C9: a second mount of a concrete container into the same
destination returns the extracted filesystem and record of the first
mount unchanged. -/
theorem mount_is_idempotent_witness :
    _ZipArchive.mount [(["u1", "VERSION"], "v")] ⟨["a.qza"], "u1", "5", "x"⟩
      ["tmp", "u1"] ⟨[(["tmp", "u1", "VERSION"], "v")], []⟩ =
      some (⟨[(["tmp", "u1", "VERSION"], "v")], []⟩,
        ⟨["tmp", "u1"], ["tmp", "u1", "VERSION"], "u1", "5", "x"⟩) :=
  (mount_is_idempotent [(["u1", "VERSION"], "v")] ⟨["a.qza"], "u1", "5", "x"⟩
    ["tmp", "u1"] ⟨[], []⟩ ⟨[(["tmp", "u1", "VERSION"], "v")], []⟩
    ⟨["tmp", "u1"], ["tmp", "u1", "VERSION"], "u1", "5", "x"⟩ "v"
    (by decide) (by decide) (by decide) (by decide) (by decide)).2 (by rfl)

/-- C8: saving a source tree into a container and extracting that container
back yields exactly the source file set and contents minus the hidden
entries: no hidden name ever enters the container, and the extracted
filesystem holds a file at the destination-parent path of each non-hidden
source file with its original content, and nothing else. -/
theorem save_extract_round_trip (uuid : String) (tree : List Entry)
    (parent : Path) (fs2 : FS)
    (hu0 : ¬ Py.isHidden uuid = true) (hu1 : ¬ uuid = "")
    (hkeys : (tree.map Prod.fst).Nodup)
    (hvalid : ∀ e ∈ tree, ∀ c ∈ e.1, ¬ c = "")
    (hext : _ZipArchive.extract (_ZipArchive.save uuid tree) uuid
      (parent ++ [uuid]) ⟨[], []⟩ = some fs2) :
    (∀ e ∈ _ZipArchive.save uuid tree, ∀ c ∈ e.1.tail,
      ¬ Py.isHidden c = true) ∧
    (∀ p content, fs2.fileAt p = some content ↔
      ∃ comps, p = parent ++ uuid :: comps ∧ (comps, content) ∈ tree ∧
        ∀ c ∈ comps, ¬ Py.isHidden c = true) := by
  have hhide : ∀ e ∈ _ZipArchive.save uuid tree, ∀ c ∈ e.1.tail,
      ¬ Py.isHidden c = true := by
    intro e he
    rcases (_ZipArchive.mem_save_iff uuid tree e).mp he with
      ⟨comps, content, rfl, _, hnh⟩
    exact hnh
  refine ⟨hhide, ?_⟩
  have hsel : (_ZipArchive.save uuid tree).filter
      (fun e => _ZipArchive.nameMatches uuid e.1) =
      _ZipArchive.save uuid tree := by
    refine List.filter_eq_self.mpr ?_
    intro e he
    rcases (_ZipArchive.mem_save_iff uuid tree e).mp he with
      ⟨comps, content, rfl, _, _⟩
    simp [_ZipArchive.nameMatches, List.isPrefixOf_iff_prefix]
  have hext2 : _ZipArchive.writeAll parent (_ZipArchive.save uuid tree)
      ⟨[], []⟩ = fs2 := by
    rw [_ZipArchive.extract, if_pos (by rw [List.getLast?_concat]),
      List.dropLast_concat, hsel] at hext
    exact Option.some.inj hext
  have htargets : ∀ e ∈ _ZipArchive.save uuid tree,
      Zipfile.extractTarget parent e.1 = parent ++ e.1 := by
    intro e he
    rcases (_ZipArchive.mem_save_iff uuid tree e).mp he with
      ⟨comps, content, rfl, hmem, hnh⟩
    rw [Zipfile.extractTarget]
    congr 1
    refine List.filter_eq_self.mpr ?_
    intro c hc
    rcases List.mem_cons.mp hc with rfl | hc2
    · have hdot : ¬ c = "." := by
        intro h
        exact hu0 (by rw [h]; rfl)
      have hdots : ¬ c = ".." := by
        intro h
        exact hu0 (by rw [h]; rfl)
      simp [hu1, hdot, hdots]
    · have hne : ¬ c = "" := hvalid (comps, content) hmem c hc2
      have hdot : ¬ c = "." := by
        intro h
        exact hnh c hc2 (by rw [h]; rfl)
      have hdots : ¬ c = ".." := by
        intro h
        exact hnh c hc2 (by rw [h]; rfl)
      simp [hne, hdot, hdots]
  have hnd : ((_ZipArchive.save uuid tree).map
      (fun e => Zipfile.extractTarget parent e.1)).Nodup := by
    rw [List.map_congr_left htargets]
    have hstep : (_ZipArchive.save uuid tree).map (fun e => parent ++ e.1) =
        ((tree.filter (fun e => e.1.all (fun c => ¬ Py.isHidden c))).map
          Prod.fst).map (fun k => parent ++ uuid :: k) := by
      rw [_ZipArchive.save, List.map_map, List.map_map]
      rfl
    rw [hstep]
    refine List.Nodup.map ?_ ?_
    · intro a b h
      simpa using h
    · exact List.Nodup.sublist
        (List.Sublist.map Prod.fst (List.filter_sublist tree)) hkeys
  intro p content
  constructor
  · intro hf
    by_cases hcase : ∀ e ∈ _ZipArchive.save uuid tree,
        ¬ Zipfile.extractTarget parent e.1 = p
    · rw [← hext2,
        _ZipArchive.writeAll_fileAt_of_no_target _ _ _ _ hcase] at hf
      exact absurd hf (by simp [FS.fileAt, List.lookup])
    · push_neg at hcase
      obtain ⟨e, he, hpe⟩ := hcase
      have hfe := _ZipArchive.writeAll_fileAt_of_mem parent
        (_ZipArchive.save uuid tree) ⟨[], []⟩ hnd e he
      rw [hext2, hpe] at hfe
      have hpc : p = parent ++ e.1 := by rw [← hpe, htargets e he]
      have hce : content = e.2 := by
        rw [hf] at hfe
        exact Option.some.inj hfe
      rcases (_ZipArchive.mem_save_iff uuid tree e).mp he with
        ⟨comps, c2, heq, hmem, hnh⟩
      refine ⟨comps, ?_, ?_, hnh⟩
      · rw [hpc, heq]
      · rw [hce, heq]
        exact hmem
  · rintro ⟨comps, rfl, hmem, hnh⟩
    have he : (uuid :: comps, content) ∈ _ZipArchive.save uuid tree :=
      (_ZipArchive.mem_save_iff uuid tree _).mpr
        ⟨comps, content, rfl, hmem, hnh⟩
    have hfe := _ZipArchive.writeAll_fileAt_of_mem parent
      (_ZipArchive.save uuid tree) ⟨[], []⟩ hnd _ he
    rw [htargets _ he, hext2] at hfe
    exact hfe

/-- Witness for C8: a concrete tree with one visible and one hidden file
round-trips to exactly the visible file. -/
theorem save_extract_round_trip_witness :
    (⟨[(["p", "u1", "data", "x"], "a")], []⟩ : FS).fileAt
        ["p", "u1", "data", "x"] = some "a" ↔
      ∃ comps, (["p", "u1", "data", "x"] : Path) = ["p"] ++ "u1" :: comps ∧
        (comps, "a") ∈ [((["data", "x"] : Path), "a"),
          (([".h"] : Path), "b")] ∧
        ∀ c ∈ comps, ¬ Py.isHidden c = true :=
  (save_extract_round_trip "u1" [(["data", "x"], "a"), ([".h"], "b")] ["p"]
    ⟨[(["p", "u1", "data", "x"], "a")], []⟩ (by decide) (by decide)
    (by decide) (by decide) (by rfl)).2 ["p", "u1", "data", "x"] "a"

end Qiime2
